import Mathlib

set_option maxRecDepth 10000

/-!
Verification of the flowsense event engine.

Shallow embedding of the core detection/event logic of the repository:

* `src/src/utils/geometry.py` — point-in-polygon (ray casting), segment
  crossing test, cross-product direction classification;
* `src/src/persistence/csv_writer.py` — the CSV event sink with its
  per-(track, zone) membership state and per-(track, line) crossing
  deduplication;
* `src/src/video_unified.py` (`analizar_objeto_con_zonas`) — the unified
  per-frame analysis of one tracked object against the configured polygons
  and lines, including the optional database sink;
* `src/src/tracking.py` (`realizar_tracking`) — the qualification identity
  stabilization policy (stable id after 5 observed frames);
* `src/src/utils/file_manager.py` (`cargar_zonas_desde_json`) — zone/line
  configuration loading.

Coordinates are integers (the code derives them with integer division from
bounding boxes); the single interpolated quantity `xinters` in the ray
casting test is a Python float division of integers and is modelled exactly
over `ℚ`.
-/

namespace Flowsense

/-- A 2D point with integer pixel coordinates. -/
abbrev Point : Type := ℤ × ℤ

/-! ## Geometry primitives (src/src/utils/geometry.py) -/

/-- Loop body of `punto_en_poligono`: whether the edge `(p1, p2)` is counted
as crossed by the rightward ray from `(x, y)`.  Mirrors the nested `if`s of
the Python loop; `xinters` is the float interpolation, modelled over `ℚ`
(when `p1y = p2y` the division is never reached in Python because the outer
conditions already fail, and here the conjunct is likewise `false`). -/
def edgeCross (x y p1x p1y p2x p2y : ℤ) : Bool :=
  decide (y > min p1y p2y) && decide (y ≤ max p1y p2y) &&
    decide (x ≤ max p1x p2x) &&
    (decide (p1x = p2x) ||
      decide ((x : ℚ) ≤
        ((y : ℚ) - (p1y : ℚ)) * ((p2x : ℚ) - (p1x : ℚ)) /
          ((p2y : ℚ) - (p1y : ℚ)) + (p1x : ℚ)))

/-- Ray casting point-in-polygon test (`punto_en_poligono`).  The Python
loop runs `n + 1` iterations with `p2 = poly[i % n]`, starting from
`p1 = poly[0]` (the first iteration is the degenerate edge
`(poly[0], poly[0])`, which never toggles). -/
def punto_en_poligono (point : Point) (polygon : List Point) : Bool :=
  match polygon with
  | [] => false
  | p0 :: _ =>
    let n := polygon.length
    (((List.range (n + 1)).foldl
      (fun (st : Point × Bool) i =>
        let p2 := polygon.getD (i % n) (0, 0)
        (p2, if edgeCross point.1 point.2 st.1.1 st.1.2 p2.1 p2.2
             then !st.2 else st.2))
      (p0, false))).2

/-- Orientation test `ccw` from `cruza_linea`. -/
def ccw (A B C : Point) : Bool :=
  decide ((C.2 - A.2) * (B.1 - A.1) > (B.2 - A.2) * (C.1 - A.1))

/-- Segment crossing test `cruza_linea`: the motion segment `p1 → p2`
crosses the line with endpoints `linea.1, linea.2`. -/
def cruza_linea (p1 p2 : Point) (linea : Point × Point) : Bool :=
  (ccw linea.1 p1 p2 != ccw linea.2 p1 p2) &&
    (ccw linea.1 linea.2 p1 != ccw linea.1 linea.2 p2)

/-- Crossing direction labels (the Python strings `"left_to_right"` and
`"right_to_left"`). -/
inductive Direction : Type
  | left_to_right
  | right_to_left
deriving DecidableEq, Repr

/-- Cross-product direction classification `determinar_direccion_cruce`:
`cross = line_dx * move_dy - line_dy * move_dx`, positive means
`left_to_right`, otherwise `right_to_left`. -/
def determinar_direccion_cruce (prev_pos current_pos : Point)
    (line_coords : Point × Point) : Direction :=
  let line_vector : Point :=
    (line_coords.2.1 - line_coords.1.1, line_coords.2.2 - line_coords.1.2)
  let movement_vector : Point :=
    (current_pos.1 - prev_pos.1, current_pos.2 - prev_pos.2)
  let cross_product :=
    line_vector.1 * movement_vector.2 - line_vector.2 * movement_vector.1
  if cross_product > 0 then .left_to_right else .right_to_left

/-! ## CSV event sink (src/src/persistence/csv_writer.py) -/

/-- Kind of a zone event (`event_type`: `"enter"` / `"exit"`). -/
inductive EvKind : Type
  | enter
  | exit
deriving DecidableEq, Repr

/-- State transition of `CSVWriter.check_zone_event` for one track: the
track's set `track_zone_status[track_id]` of zone ids currently "inside",
together with the optionally written event kind.  An `enter` is written when
`is_in_zone` holds and the zone is not in the set; an `exit` when
`is_in_zone` fails and the zone is in the set; otherwise nothing. -/
def check_zone_event (current_zones : List String) (zone_id : String)
    (is_in_zone : Bool) : List String × Option EvKind :=
  if is_in_zone = true ∧ zone_id ∉ current_zones then
    (zone_id :: current_zones, some .enter)
  else if is_in_zone = false ∧ zone_id ∈ current_zones then
    (current_zones.erase zone_id, some .exit)
  else
    (current_zones, none)

/-- One invocation of `CSVWriter.check_line_crossing`: its arguments. -/
structure ClcCall : Type where
  track : Nat
  line : String
  crossed : Bool
  direction : Direction
  frame : Nat
deriving DecidableEq, Repr

/-- A written line crossing row (`LineCrossingEvent`), restricted to the
fields the claims mention. -/
structure LineCrossingEvent : Type where
  track : Nat
  line : String
  direction : Direction
  frame : Nat
deriving DecidableEq, Repr

/-- `CSVWriter.check_line_crossing`: writes an event iff the call reports a
crossing and `(track_id, line_id)` is not yet in `track_line_crossings`;
in that case the key is recorded. -/
def check_line_crossing (st : List (Nat × String)) (c : ClcCall) :
    List (Nat × String) × Option LineCrossingEvent :=
  if c.crossed = true ∧ (c.track, c.line) ∉ st then
    ((c.track, c.line) :: st, some ⟨c.track, c.line, c.direction, c.frame⟩)
  else
    (st, none)

/-- Run a sequence of `check_line_crossing` calls against the writer state,
collecting the written events in order. -/
def run_line_calls (st : List (Nat × String)) :
    List ClcCall → List LineCrossingEvent
  | [] => []
  | c :: cs =>
    match check_line_crossing st c with
    | (st', some e) => e :: run_line_calls st' cs
    | (st', none) => run_line_calls st' cs

/-- The written line crossing rows belonging to the pair `(t, l)`. -/
def eventsFor (t : Nat) (l : String) (evs : List LineCrossingEvent) :
    List LineCrossingEvent :=
  evs.filter (fun e => decide (e.track = t ∧ e.line = l))

/-- Whether a call reports a crossing of the pair `(t, l)`. -/
def clcMatches (t : Nat) (l : String) (c : ClcCall) : Bool :=
  c.crossed && decide (c.track = t) && decide (c.line = l)

/-! ## Unified engine (src/src/video_unified.py, `analizar_objeto_con_zonas`)

Single-entity slice: all per-track dictionaries
(`trayectorias[track_id]`, `ids_en_zona[track_id]`,
`track_id ∈ ids_cruzaron_linea`, `track_zone_status[track_id]`,
`{l | (track_id, l) ∈ track_line_crossings}`) are carried for one fixed
track.  Events name the sink channel: the CSV writer, or the optional
database service (`db_service`, present when `enable_database` is set;
the zone/line lookup in `zones_config` is assumed to resolve, as it does
for a configuration produced by `cargar_zonas_desde_json`). -/

/-- Sink channel of an emitted event. -/
inductive Chan : Type
  | csv
  | db
deriving DecidableEq, Repr

/-- An event emitted by the unified engine for the tracked entity. -/
inductive Ev : Type
  | zone (ch : Chan) (zoneId : String) (kind : EvKind)
  | line (ch : Chan) (lineId : String) (dir : Direction)
deriving DecidableEq, Repr

/-- Per-entity engine state. -/
structure EngineState : Type where
  /-- `trayectorias[track_id]`: unbounded list of centre positions. -/
  traj : List Point
  /-- `ids_en_zona[track_id]`: zone names the engine holds as "inside". -/
  engZones : List String
  /-- whether `track_id ∈ ids_cruzaron_linea`. -/
  crossed : Bool
  /-- `CSVWriter.track_zone_status[track_id]`. -/
  csvZones : List String
  /-- line ids `l` with `(track_id, l) ∈ CSVWriter.track_line_crossings`. -/
  csvLines : List String
deriving DecidableEq, Repr

/-- Initial per-entity state (all maps empty). -/
def initState : EngineState := ⟨[], [], false, [], []⟩

/-- Zone id synthesized for the polygon at index `i` (`f"polygon_{i+1}"`). -/
def zoneIdAt (i : Nat) : String := "polygon_" ++ toString (i + 1)

/-- Line id synthesized for the line at index `i` (`f"line_{i+1}"`). -/
def lineIdAt (i : Nat) : String := "line_" ++ toString (i + 1)

/-- Python `set.add`. -/
def insertZone (zs : List String) (z : String) : List String :=
  if z ∈ zs then zs else z :: zs

/-- Processing of one polygon (index `i`) for the current position: the
enter branch runs on every frame the position is inside (the engine adds
the zone name and calls `check_zone_event` with `is_in_zone=True`, and the
database sink, when enabled, saves an `enter` event each such frame); the
exit branch runs when the position is outside and the zone name is in
`ids_en_zona[track_id]`. -/
def zoneStep (dbOn : Bool) (pos : Point) (st : EngineState)
    (ip : Nat × List Point) : EngineState × List Ev :=
  let zid := zoneIdAt ip.1
  let is_in_zone := punto_en_poligono pos ip.2
  if is_in_zone then
    let eng' := insertZone st.engZones zid
    let r := check_zone_event st.csvZones zid true
    let csvEvs := r.2.toList.map (fun k => Ev.zone Chan.csv zid k)
    let dbEvs := if dbOn then [Ev.zone .db zid .enter] else []
    ({st with engZones := eng', csvZones := r.1}, csvEvs ++ dbEvs)
  else if zid ∈ st.engZones then
    let eng' := st.engZones.erase zid
    let r := check_zone_event st.csvZones zid false
    let csvEvs := r.2.toList.map (fun k => Ev.zone Chan.csv zid k)
    let dbEvs := if dbOn then [Ev.zone .db zid .exit] else []
    ({st with engZones := eng', csvZones := r.1}, csvEvs ++ dbEvs)
  else
    (st, [])

/-- The polygon loop (`for i, poly in enumerate(polygons)`). -/
def zoneLoop (dbOn : Bool) (pos : Point) (st : EngineState) :
    List (Nat × List Point) → EngineState × List Ev
  | [] => (st, [])
  | ip :: rest =>
    let r := zoneStep dbOn pos st ip
    let rr := zoneLoop dbOn pos r.1 rest
    (rr.1, r.2 ++ rr.2)

/-- Single-entity slice of `CSVWriter.check_line_crossing` as invoked from
the engine (the call site always passes `crossed_line=True`). -/
def csvLineEmit (csvLines : List String) (lid : String) (d : Direction) :
    List String × List Ev :=
  if lid ∉ csvLines then (lid :: csvLines, [Ev.line .csv lid d])
  else (csvLines, [])

/-- Processing of one line (index `i`) for the motion segment
`prev → cur`: guarded by `cruza_linea` and by the entity-level flag
`track_id not in ids_cruzaron_linea`; the direction is
`"left_to_right" if cx > prev_x else "right_to_left"` (a raw x-coordinate
comparison, both on the CSV path at line 758 and on the database path at
line 809 of `video_unified.py`). -/
def lineStep (dbOn : Bool) (prev cur : Point) (st : EngineState)
    (il : Nat × (Point × Point)) : EngineState × List Ev :=
  if cruza_linea prev cur il.2 = true ∧ st.crossed = false then
    let lid := lineIdAt il.1
    let dir := if cur.1 > prev.1 then Direction.left_to_right
               else Direction.right_to_left
    let r := csvLineEmit st.csvLines lid dir
    let dbEvs := if dbOn then [Ev.line .db lid dir] else []
    ({st with crossed := true, csvLines := r.1}, r.2 ++ dbEvs)
  else
    (st, [])

/-- The line loop (`for i, linea in enumerate(lines)`). -/
def lineLoop (dbOn : Bool) (prev cur : Point) (st : EngineState) :
    List (Nat × (Point × Point)) → EngineState × List Ev
  | [] => (st, [])
  | il :: rest =>
    let r := lineStep dbOn prev cur st il
    let rr := lineLoop dbOn prev cur r.1 rest
    (rr.1, r.2 ++ rr.2)

/-- One frame of `analizar_objeto_con_zonas` for the entity at position
`pos`: append to the trajectory, run the polygon loop on the current
position, then — when the trajectory has more than one point — run the line
loop on `pts[-2] → pts[-1]`. -/
def stepFrame (dbOn : Bool) (polygons : List (List Point))
    (lines : List (Point × Point)) (st : EngineState) (pos : Point) :
    EngineState × List Ev :=
  let st1 : EngineState := {st with traj := st.traj ++ [pos]}
  let zr := zoneLoop dbOn pos st1 polygons.enum
  let pts := zr.1.traj
  if pts.length > 1 then
    let prev := pts.getD (pts.length - 2) (0, 0)
    let cur := pts.getD (pts.length - 1) (0, 0)
    let lr := lineLoop dbOn prev cur zr.1 lines.enum
    (lr.1, zr.2 ++ lr.2)
  else
    (zr.1, zr.2)

/-- Run the engine over the entity's per-frame positions. -/
def runEngine (dbOn : Bool) (polygons : List (List Point))
    (lines : List (Point × Point)) (st : EngineState) :
    List Point → EngineState × List Ev
  | [] => (st, [])
  | p :: ps =>
    let r := stepFrame dbOn polygons lines st p
    let rr := runEngine dbOn polygons lines r.1 ps
    (rr.1, r.2 ++ rr.2)

/-- Recognizes line crossing events (either sink). -/
def isLineEv : Ev → Bool
  | .line _ _ _ => true
  | _ => false

/-- Crossing budget of an entity state: 1 while the entity is not yet in
`ids_cruzaron_linea`, 0 afterwards (used to bound the number of crossing
events the engine can still emit). -/
def slack (st : EngineState) : Nat := if st.crossed then 0 else 1

/-- Recognizes zone events written by the CSV sink. -/
def isCsvZoneEv : Ev → Bool
  | .zone .csv _ _ => true
  | _ => false

/-- Recognizes `enter` zone events on any sink. -/
def isEnterEv : Ev → Bool
  | .zone _ _ .enter => true
  | _ => false

/-! ## Qualification identity stabilization (src/src/tracking.py)

Slice of `realizar_tracking` for one raw tracker id: per frame where the id
is reported, `appear[oid] += 1`; a stable id is assigned once
`appear[oid] >= 5 and oid not in id_map`; the object is processed (trail,
drawing, statistics) only in frames where `oid in id_map`.  The `appear`
counter is never reset when the id is absent from a frame. -/

/-- Per-raw-id stabilization state: `appear[oid]`, whether
`oid ∈ id_map`, and how many frames were processed downstream. -/
structure QualState : Type where
  appear : Nat
  assigned : Bool
  processed : Nat
deriving DecidableEq, Repr

/-- One frame of the qualification policy; `seen` tells whether the raw id
was reported by the tracker in this frame. -/
def qualStep (st : QualState) (seen : Bool) : QualState :=
  if seen then
    let a := st.appear + 1
    let asg := st.assigned || decide (5 ≤ a)
    { appear := a, assigned := asg,
      processed := st.processed + (if asg then 1 else 0) }
  else st

/-- Run the qualification policy over the per-frame observation flags of
one raw id, starting from the fresh state. -/
def qualRun (obs : List Bool) : QualState :=
  obs.foldl qualStep ⟨0, false, 0⟩

/-- Length of the longest consecutive run of `true` in a list (used to
state properties about consecutive observation). -/
def maxRunAux : List Bool → Nat → Nat → Nat
  | [], cur, best => max cur best
  | b :: bs, cur, best =>
    if b then maxRunAux bs (cur + 1) best
    else maxRunAux bs 0 (max cur best)

/-- Longest consecutive run of `true`. -/
def maxRun (l : List Bool) : Nat := maxRunAux l 0 0

/-! ## Trail buffer (src/src/tracking.py line 74, src/src/video_unified.py
line 240): `deque(maxlen=30)`. -/

/-- Append to a `deque(maxlen=30)`: the new element is appended and, past
capacity 30, the oldest elements are dropped from the front. -/
def trailPush (buf : List Point) (p : Point) : List Point :=
  let b := buf ++ [p]
  b.drop (b.length - 30)

/-! ## Configuration loading (src/src/utils/file_manager.py) -/

/-- One zone/line entry of the configuration document: either the old
format (a bare list of points) or the new format (a dict whose
`coordinates` key holds the points). -/
inductive ZoneDef : Type
  | plain (coords : List Point)
  | withMeta (id name : String) (coords : List Point)
deriving DecidableEq, Repr

/-- The coordinates extracted from an entry (`line.get('coordinates', [])`
for the dict format, the entry itself for the list format). -/
def zoneDefCoords : ZoneDef → List Point
  | .plain c => c
  | .withMeta _ _ c => c

/-- `cargar_zonas_desde_json`: collects the coordinates of every `lines`
entry and every `polygons` entry, in order.  No validation of any kind is
performed on the point counts. -/
def cargar_zonas_desde_json (linesIn polygonsIn : List ZoneDef) :
    List (List Point) × List (List Point) :=
  (linesIn.map zoneDefCoords, polygonsIn.map zoneDefCoords)

/-! ## Helper lemmas -/

theorem zoneStep_traj (d : Bool) (pos : Point) (st : EngineState)
    (ip : Nat × List Point) : (zoneStep d pos st ip).1.traj = st.traj := by
  simp only [zoneStep]
  split_ifs <;> rfl

theorem zoneLoop_traj (d : Bool) (pos : Point) (ips : List (Nat × List Point)) :
    ∀ st : EngineState, (zoneLoop d pos st ips).1.traj = st.traj := by
  induction ips with
  | nil => intro st; rfl
  | cons ip rest ih =>
    intro st
    simp only [zoneLoop]
    rw [ih, zoneStep_traj]

theorem lineStep_traj (d : Bool) (prev cur : Point) (st : EngineState)
    (il : Nat × (Point × Point)) : (lineStep d prev cur st il).1.traj = st.traj := by
  simp only [lineStep]
  split_ifs <;> rfl

theorem lineLoop_traj (d : Bool) (prev cur : Point)
    (ils : List (Nat × (Point × Point))) :
    ∀ st : EngineState, (lineLoop d prev cur st ils).1.traj = st.traj := by
  induction ils with
  | nil => intro st; rfl
  | cons il rest ih =>
    intro st
    simp only [lineLoop]
    rw [ih, lineStep_traj]

theorem stepFrame_traj (d : Bool) (P : List (List Point))
    (L : List (Point × Point)) (st : EngineState) (pos : Point) :
    (stepFrame d P L st pos).1.traj = st.traj ++ [pos] := by
  simp only [stepFrame]
  split_ifs
  · rw [lineLoop_traj, zoneLoop_traj]
  · rw [zoneLoop_traj]

theorem runEngine_traj (d : Bool) (P : List (List Point))
    (L : List (Point × Point)) (ps : List Point) :
    ∀ st : EngineState, (runEngine d P L st ps).1.traj = st.traj ++ ps := by
  induction ps with
  | nil => intro st; simp [runEngine]
  | cons p rest ih =>
    intro st
    simp only [runEngine]
    rw [ih, stepFrame_traj, List.append_assoc, List.singleton_append]

theorem qual_appear (obs : List Bool) :
    ∀ st : QualState, (obs.foldl qualStep st).appear = st.appear + obs.count true := by
  induction obs with
  | nil => intro st; simp
  | cons b rest ih =>
    intro st
    simp only [List.foldl_cons, List.count_cons]
    rw [ih]
    cases b
    · simp [qualStep]
    · simp [qualStep]
      omega

theorem qual_assigned_ge (obs : List Bool) :
    ∀ st : QualState, (st.assigned = true → 5 ≤ st.appear) →
      ((obs.foldl qualStep st).assigned = true → 5 ≤ (obs.foldl qualStep st).appear) := by
  induction obs with
  | nil => intro st h; exact h
  | cons b rest ih =>
    intro st h
    simp only [List.foldl_cons]
    apply ih
    cases b
    · simpa [qualStep] using h
    · simp only [qualStep, if_pos]
      simp only [Bool.or_eq_true, decide_eq_true_iff]
      rintro (ha | ha)
      · have := h ha
        omega
      · omega

theorem qual_small (obs : List Bool) :
    ∀ st : QualState, st.assigned = false → st.processed = 0 →
      st.appear + obs.count true ≤ 4 →
      (obs.foldl qualStep st).assigned = false ∧
        (obs.foldl qualStep st).processed = 0 := by
  induction obs with
  | nil => intro st h1 h2 _; exact ⟨h1, h2⟩
  | cons b rest ih =>
    intro st h1 h2 hle
    simp only [List.count_cons] at hle
    simp only [List.foldl_cons]
    cases b
    · apply ih st h1 h2
      simp at hle
      omega
    · simp at hle
      have hlt : ¬ (5 ≤ st.appear + 1) := by omega
      apply ih
      · simp [qualStep, h1, hlt]
      · simp [qualStep, h1, hlt, h2]
      · simp only [qualStep, if_pos]
        omega

/-! ## Claim C4 -/

/-- C4 (corrected): under the qualification policy of `realizar_tracking`,
the raw id observed in frames 1–4 only is never assigned a stable id and is
never processed downstream; but the necessary condition for assignment is
five *observations in total* (the `appear` counter is cumulative and never
reset on absent frames), not five consecutive frames. -/
theorem c4_qualification_five_total (obs : List Bool) :
    ((qualRun obs).assigned = true → 5 ≤ obs.count true) ∧
      (obs.count true ≤ 4 →
        (qualRun obs).assigned = false ∧ (qualRun obs).processed = 0) := by
  constructor
  · intro h
    have := qual_assigned_ge obs ⟨0, false, 0⟩ (by simp) h
    rwa [qual_appear, Nat.zero_add] at this
  · intro h
    exact qual_small obs ⟨0, false, 0⟩ rfl rfl (by simpa using h)

/-- C4 witness: a raw id observed in exactly four frames is never assigned
a stable id and produces no downstream processing. -/
theorem c4_qualification_five_total_witness :
    (qualRun [true, true, true, true]).assigned = false ∧
      (qualRun [true, true, true, true]).processed = 0 :=
  (c4_qualification_five_total [true, true, true, true]).2 (by decide)

/-- C4 counterexample: a raw id observed in five non-consecutive frames
(alternating present/absent, longest consecutive run 1) is assigned a
stable id, so "at least 5 consecutive frames" is not required by the code. -/
theorem c4_nonconsecutive_assigned :
    (qualRun [true, false, true, false, true, false, true, false, true]).assigned
        = true ∧
      maxRun [true, false, true, false, true, false, true, false, true] = 1 := by
  decide

/-! ## Claim C5 -/

/-- C5 (corrected): `cargar_zonas_desde_json` performs no validation: it
returns exactly the coordinate lists of all entries, so every line or
polygon definition is loaded regardless of its point count (nothing is
rejected). -/
theorem c5_loader_no_validation (ls ps : List ZoneDef) :
    cargar_zonas_desde_json ls ps = (ls.map zoneDefCoords, ps.map zoneDefCoords) ∧
      (cargar_zonas_desde_json ls ps).1.length = ls.length ∧
      (cargar_zonas_desde_json ls ps).2.length = ps.length := by
  refine ⟨rfl, ?_, ?_⟩ <;> simp [cargar_zonas_desde_json]

/-- C5 counterexample: a 3-point line definition and a 2-point polygon
definition are both passed through by the loader unchanged, not rejected. -/
theorem c5_malformed_defs_loaded :
    cargar_zonas_desde_json [ZoneDef.plain [(0, 0), (1, 1), (2, 2)]]
        [ZoneDef.plain [(0, 0), (5, 5)]]
      = ([[(0, 0), (1, 1), (2, 2)]], [[(0, 0), (5, 5)]]) ∧
      ([((0 : ℤ), (0 : ℤ)), (1, 1), (2, 2)].length ≠ 2 ∧
        [((0 : ℤ), (0 : ℤ)), (5, 5)].length < 3) := by
  exact ⟨rfl, by decide, by decide⟩

/-! ## Claim C6 -/

/-- C6 (confirmed): for the line `[(1003,851),(1666,351)]` and the motion
`(1083,911) → (923,791)`, `cruza_linea` reports a crossing,
`determinar_direccion_cruce` classifies it `right_to_left`, and the unified
engine emits exactly one crossing event, with direction `right_to_left`. -/
theorem c6_scenario_right_to_left :
    cruza_linea (1083, 911) (923, 791) ((1003, 851), (1666, 351)) = true ∧
      determinar_direccion_cruce (1083, 911) (923, 791)
          ((1003, 851), (1666, 351)) = .right_to_left ∧
      (runEngine false [] [((1003, 851), (1666, 351))] initState
          [(1083, 911), (923, 791)]).2
        = [Ev.line .csv "line_1" .right_to_left] := by
  refine ⟨by decide, by decide, by decide⟩

/-! ## Claim C8 -/

/-- C8 (corrected): the ray-casting tie-break of `punto_en_poligono` is
strict at an edge's lower endpoint and inclusive at its upper endpoint: an
edge counts as crossed only when `min(p1y, p2y) < y ≤ max(p1y, p2y)`; in
particular a query point whose `y` equals the *minimum* endpoint's `y` is
treated as non-crossing for that edge.  (It is not treated as non-crossing
for an edge whose maximum endpoint has that `y` — see the counterexample.) -/
theorem c8_tie_break_strict_at_min (x y p1x p1y p2x p2y : ℤ) :
    (y = min p1y p2y → edgeCross x y p1x p1y p2x p2y = false) ∧
      (edgeCross x y p1x p1y p2x p2y = true →
        min p1y p2y < y ∧ y ≤ max p1y p2y) := by
  constructor
  · intro h
    simp [edgeCross, h]
  · intro h
    simp only [edgeCross, Bool.and_eq_true, decide_eq_true_iff] at h
    exact ⟨h.1.1.1, h.1.1.2⟩

/-- C8 witness: the tie-break at the minimum endpoint (`y = 0` equals the
lower vertex of the edge `(0,0)–(0,10)`), and the strict/inclusive bounds
for a counted edge. -/
theorem c8_tie_break_strict_at_min_witness :
    edgeCross 5 0 0 0 0 10 = false ∧
      (min (0 : ℤ) 10 < 10 ∧ (10 : ℤ) ≤ max 0 10) :=
  ⟨(c8_tie_break_strict_at_min 5 0 0 0 0 10).1 (by decide),
    (c8_tie_break_strict_at_min 5 10 10 0 10 10).2 (by decide)⟩

/-- C8 counterexample: the query point `(5,10)` has `y = 10`, equal to the
`y` of the vertex `(10,10)`; the edge `(10,0)–(10,10)` incident to that
vertex *is* counted as crossing (the rule is inclusive at the maximum
endpoint), and the whole test reports the point inside the square. -/
theorem c8_vertex_y_edge_counted :
    edgeCross 5 10 10 0 10 10 = true ∧
      punto_en_poligono (5, 10) [(0, 0), (10, 0), (10, 10), (0, 10)] = true := by
  refine ⟨by decide, by decide⟩

/-! ## Claim C9 -/

theorem trailPush_length_le (buf : List Point) (p : Point) :
    (trailPush buf p).length ≤ 30 := by
  simp only [trailPush, List.length_drop, List.length_append,
    List.length_singleton]
  omega

theorem trail_fold_length_le (ps : List Point) :
    ∀ buf : List Point, buf.length ≤ 30 →
      (ps.foldl trailPush buf).length ≤ 30 := by
  induction ps with
  | nil => intro buf h; simpa using h
  | cons p rest ih =>
    intro buf h
    exact ih (trailPush buf p) (trailPush_length_le buf p)

/-- C9 (corrected): the drawing `trail` buffer (a `deque(maxlen=30)`) is
bounded at capacity 30 and evicts the oldest entry when full; but the
trajectory buffer actually consulted by the zone/line analyzers
(`trayectorias[track_id]`, a plain Python list) is unbounded — after `n`
observed frames it holds all `n` positions. -/
theorem c9_trail_bounded_trajectory_not (ps qs : List Point)
    (buf : List Point) (p : Point) (d : Bool) (P : List (List Point))
    (L : List (Point × Point)) :
    (ps.foldl trailPush []).length ≤ 30 ∧
      (buf.length = 30 → trailPush buf p = buf.tail ++ [p]) ∧
      (runEngine d P L initState qs).1.traj = qs := by
  refine ⟨trail_fold_length_le ps [] (by simp), ?_, ?_⟩
  · intro h
    simp only [trailPush, List.length_append, List.length_singleton, h]
    rw [List.drop_append_of_le_length (by omega), List.drop_one]
  · simpa using runEngine_traj d P L qs initState

/-- C9 witness: pushing into a full 30-element trail evicts the oldest
element. -/
theorem c9_trail_bounded_trajectory_not_witness :
    trailPush (List.replicate 30 ((0 : ℤ), (0 : ℤ))) (1, 1)
      = (List.replicate 30 ((0 : ℤ), (0 : ℤ))).tail ++ [(1, 1)] :=
  (c9_trail_bounded_trajectory_not [] [] (List.replicate 30 ((0 : ℤ), (0 : ℤ)))
    (1, 1) false [] []).2.1 (by decide)

/-- C9 counterexample: after 31 observed frames the per-entity trajectory
consulted by the analyzers holds 31 positions — the capacity-30 bound of
the claim fails for it. -/
theorem c9_trajectory_unbounded :
    (runEngine false [] [] initState
        (List.replicate 31 ((0 : ℤ), (0 : ℤ)))).1.traj.length = 31 ∧
      ¬ (runEngine false [] [] initState
          (List.replicate 31 ((0 : ℤ), (0 : ℤ)))).1.traj.length ≤ 30 := by
  refine ⟨by decide, by decide⟩

/-! ## Claim C3 -/

theorem run_line_calls_cons (st : List (Nat × String)) (c : ClcCall)
    (cs : List ClcCall) :
    run_line_calls st (c :: cs)
      = if c.crossed = true ∧ (c.track, c.line) ∉ st then
          (⟨c.track, c.line, c.direction, c.frame⟩ : LineCrossingEvent) ::
            run_line_calls ((c.track, c.line) :: st) cs
        else run_line_calls st cs := by
  simp only [run_line_calls, check_line_crossing]
  split_ifs <;> rfl

theorem eventsFor_cons_pos (t : Nat) (l : String) (e : LineCrossingEvent)
    (evs : List LineCrossingEvent) (h : e.track = t ∧ e.line = l) :
    eventsFor t l (e :: evs) = e :: eventsFor t l evs := by
  simp only [eventsFor, List.filter_cons]
  rw [if_pos (by simpa using h)]

theorem eventsFor_cons_neg (t : Nat) (l : String) (e : LineCrossingEvent)
    (evs : List LineCrossingEvent) (h : ¬(e.track = t ∧ e.line = l)) :
    eventsFor t l (e :: evs) = eventsFor t l evs := by
  simp only [eventsFor, List.filter_cons]
  rw [if_neg (by simpa using h)]

theorem run_line_calls_mem (t : Nat) (l : String) (calls : List ClcCall) :
    ∀ st, (t, l) ∈ st → eventsFor t l (run_line_calls st calls) = [] := by
  induction calls with
  | nil => intro st _; rfl
  | cons c cs ih =>
    intro st hmem
    rw [run_line_calls_cons]
    split_ifs with hc
    · rw [eventsFor_cons_neg]
      · exact ih _ (List.mem_cons_of_mem _ hmem)
      · rintro ⟨rfl, rfl⟩
        exact hc.2 hmem
    · exact ih st hmem

theorem run_line_calls_notmem (t : Nat) (l : String) (calls : List ClcCall) :
    ∀ st, (t, l) ∉ st →
      eventsFor t l (run_line_calls st calls)
        = ((calls.filter (clcMatches t l)).take 1).map
            (fun c => ⟨c.track, c.line, c.direction, c.frame⟩) := by
  induction calls with
  | nil => intro st _; rfl
  | cons c cs ih =>
    intro st hmem
    rw [run_line_calls_cons]
    by_cases hck : c.track = t ∧ c.line = l
    · obtain ⟨ht, hl⟩ := hck
      by_cases hcr : c.crossed = true
      · rw [if_pos ⟨hcr, by rw [ht, hl]; exact hmem⟩]
        rw [eventsFor_cons_pos t l _ _ ⟨ht, hl⟩]
        rw [run_line_calls_mem t l cs ((c.track, c.line) :: st)
          (by rw [ht, hl]; exact List.mem_cons_self _ _)]
        rw [List.filter_cons_of_pos (by simp [clcMatches, hcr, ht, hl])]
        simp
      · rw [if_neg (by rintro ⟨h1, -⟩; exact hcr h1)]
        rw [ih st hmem]
        rw [List.filter_cons_of_neg (by
          simp [clcMatches]
          intro h1
          exact absurd h1 hcr)]
    · split_ifs with hc
      · rw [eventsFor_cons_neg t l _ _ hck]
        rw [ih ((c.track, c.line) :: st) (by
          intro hmem'
          rcases List.mem_cons.mp hmem' with heq | hmem''
          · rcases Prod.ext_iff.mp heq with ⟨h1, h2⟩
            exact hck ⟨h1.symm, h2.symm⟩
          · exact hmem hmem'')]
        rw [List.filter_cons_of_neg (by
          simp [clcMatches]
          intro _ h1 h2
          exact hck ⟨h1, h2⟩)]
      · rw [ih st hmem]
        rw [List.filter_cons_of_neg (by
          simp [clcMatches]
          intro h1 h2 h3
          exact hc ⟨h1, by rw [h2, h3]; exact hmem⟩)]

/-- C3 (confirmed): over any sequence of `check_line_crossing` calls, the
events written for a pair `(t, l)` are exactly the first call that reports
a crossing for that pair (and nothing else); in particular at most one
`LineCrossingEvent` is ever written per `(entity, line)` pair for the
session. -/
theorem c3_one_event_per_pair (calls : List ClcCall) (t : Nat) (l : String) :
    eventsFor t l (run_line_calls [] calls)
      = ((calls.filter (clcMatches t l)).take 1).map
          (fun c => ⟨c.track, c.line, c.direction, c.frame⟩) ∧
    (eventsFor t l (run_line_calls [] calls)).length ≤ 1 := by
  have h := run_line_calls_notmem t l calls [] (by simp)
  refine ⟨h, ?_⟩
  rw [h]
  simp only [List.length_map]
  exact le_trans (List.length_take_le 1 _) (le_refl 1)

/-! ## Claim C10 -/

theorem zoneStep_crossed (d : Bool) (pos : Point) (st : EngineState)
    (ip : Nat × List Point) : (zoneStep d pos st ip).1.crossed = st.crossed := by
  simp only [zoneStep]
  split_ifs <;> rfl

theorem zoneStep_events_zone (d : Bool) (pos : Point) (st : EngineState)
    (ip : Nat × List Point) :
    ∀ e ∈ (zoneStep d pos st ip).2, ∃ ch zid k, e = Ev.zone ch zid k := by
  intro e he
  simp only [zoneStep] at he
  split_ifs at he
  all_goals
    simp only [List.mem_append, List.mem_map, Option.mem_toList,
      List.mem_singleton, List.not_mem_nil, or_false, false_or] at he
  all_goals
    first
    | (rcases he with ⟨k, -, rfl⟩ | rfl
       · exact ⟨_, _, _, rfl⟩
       · exact ⟨_, _, _, rfl⟩)
    | (rcases he with ⟨k, -, rfl⟩
       exact ⟨_, _, _, rfl⟩)

theorem zoneLoop_crossed (d : Bool) (pos : Point)
    (ips : List (Nat × List Point)) :
    ∀ st : EngineState, (zoneLoop d pos st ips).1.crossed = st.crossed := by
  induction ips with
  | nil => intro st; rfl
  | cons ip rest ih =>
    intro st
    simp only [zoneLoop]
    rw [ih, zoneStep_crossed]

theorem zoneLoop_no_line (d : Bool) (pos : Point)
    (ips : List (Nat × List Point)) :
    ∀ st : EngineState, (zoneLoop d pos st ips).2.filter isLineEv = [] := by
  induction ips with
  | nil => intro st; rfl
  | cons ip rest ih =>
    intro st
    simp only [zoneLoop, List.filter_append]
    rw [ih]
    rw [List.filter_eq_nil_iff.mpr, List.nil_append]
    intro e he
    obtain ⟨ch, zid, k, rfl⟩ := zoneStep_events_zone d pos st ip e he
    simp [isLineEv]

theorem lineStep_slack (prev cur : Point) (st : EngineState)
    (il : Nat × (Point × Point)) :
    ((lineStep false prev cur st il).2.filter isLineEv).length
      + slack (lineStep false prev cur st il).1 ≤ slack st := by
  by_cases h : cruza_linea prev cur il.2 = true ∧ st.crossed = false
  · obtain ⟨h1, h2⟩ := h
    by_cases hmem : lineIdAt il.1 ∈ st.csvLines
    · simp [lineStep, h1, h2, csvLineEmit, hmem, slack, isLineEv]
    · simp [lineStep, h1, h2, csvLineEmit, hmem, slack, isLineEv]
  · simp [lineStep, h, slack]

theorem lineLoop_slack (prev cur : Point)
    (ils : List (Nat × (Point × Point))) :
    ∀ st : EngineState,
      ((lineLoop false prev cur st ils).2.filter isLineEv).length
        + slack (lineLoop false prev cur st ils).1 ≤ slack st := by
  induction ils with
  | nil => intro st; simp [lineLoop]
  | cons il rest ih =>
    intro st
    simp only [lineLoop, List.filter_append, List.length_append]
    have h1 := lineStep_slack prev cur st il
    have h2 := ih (lineStep false prev cur st il).1
    omega

theorem stepFrame_slack (P : List (List Point)) (L : List (Point × Point))
    (st : EngineState) (pos : Point) :
    ((stepFrame false P L st pos).2.filter isLineEv).length
      + slack (stepFrame false P L st pos).1 ≤ slack st := by
  simp only [stepFrame]
  have hz : slack (zoneLoop false pos {st with traj := st.traj ++ [pos]} P.enum).1
      = slack st := by
    simp only [slack, zoneLoop_crossed]
  split_ifs
  · simp only [List.filter_append, List.length_append, zoneLoop_no_line,
      List.length_nil, Nat.zero_add]
    have := lineLoop_slack
      ((zoneLoop false pos {st with traj := st.traj ++ [pos]} P.enum).1.traj.getD
        ((zoneLoop false pos {st with traj := st.traj ++ [pos]} P.enum).1.traj.length - 2) (0, 0))
      ((zoneLoop false pos {st with traj := st.traj ++ [pos]} P.enum).1.traj.getD
        ((zoneLoop false pos {st with traj := st.traj ++ [pos]} P.enum).1.traj.length - 1) (0, 0))
      L.enum (zoneLoop false pos {st with traj := st.traj ++ [pos]} P.enum).1
    omega
  · rw [zoneLoop_no_line]
    simp only [List.length_nil, Nat.zero_add]
    omega

theorem runEngine_slack (P : List (List Point)) (L : List (Point × Point))
    (ps : List Point) :
    ∀ st : EngineState,
      ((runEngine false P L st ps).2.filter isLineEv).length
        + slack (runEngine false P L st ps).1 ≤ slack st := by
  induction ps with
  | nil => intro st; simp [runEngine]
  | cons p rest ih =>
    intro st
    simp only [runEngine, List.filter_append, List.length_append]
    have h1 := stepFrame_slack P L st p
    have h2 := ih (stepFrame false P L st p).1
    omega

/-- C10 (confirmed): in the unified engine (default configuration, database
sink off) the crossing deduplication is keyed by the entity alone: over any
frame sequence, any polygon set and any list of configured lines, at most
one line crossing event in total is emitted for the entity — even when its
motion crosses several distinct lines. -/
theorem c10_entity_keyed_dedup (P : List (List Point))
    (L : List (Point × Point)) (ps : List Point) :
    ((runEngine false P L initState ps).2.filter isLineEv).length ≤ 1 := by
  have h := runEngine_slack P L ps initState
  have hinit : slack initState = 1 := rfl
  omega

/-! ## Claim C1 -/

theorem runEngine_append (d : Bool) (P : List (List Point))
    (L : List (Point × Point)) (xs ys : List Point) :
    ∀ st : EngineState,
      runEngine d P L st (xs ++ ys)
        = ((runEngine d P L (runEngine d P L st xs).1 ys).1,
           (runEngine d P L st xs).2
             ++ (runEngine d P L (runEngine d P L st xs).1 ys).2) := by
  induction xs with
  | nil => intro st; simp [runEngine]
  | cons x xs ih =>
    intro st
    simp only [List.cons_append, runEngine, List.append_eq, ih,
      List.append_assoc]

theorem runEngine_append_snd (d : Bool) (P : List (List Point))
    (L : List (Point × Point)) (xs ys : List Point) (st : EngineState) :
    (runEngine d P L st (xs ++ ys)).2
      = (runEngine d P L st xs).2
          ++ (runEngine d P L (runEngine d P L st xs).1 ys).2 := by
  rw [runEngine_append]

theorem runEngine_append_fst (d : Bool) (P : List (List Point))
    (L : List (Point × Point)) (xs ys : List Point) (st : EngineState) :
    (runEngine d P L st (xs ++ ys)).1
      = (runEngine d P L (runEngine d P L st xs).1 ys).1 := by
  rw [runEngine_append]

theorem runEngine_cons_snd (d : Bool) (P : List (List Point))
    (L : List (Point × Point)) (p : Point) (ps : List Point)
    (st : EngineState) :
    (runEngine d P L st (p :: ps)).2
      = (stepFrame d P L st p).2
          ++ (runEngine d P L (stepFrame d P L st p).1 ps).2 := rfl

theorem runEngine_cons_fst (d : Bool) (P : List (List Point))
    (L : List (Point × Point)) (p : Point) (ps : List Point)
    (st : EngineState) :
    (runEngine d P L st (p :: ps)).1
      = (runEngine d P L (stepFrame d P L st p).1 ps).1 := rfl

theorem stepFrame_single_poly (d : Bool) (poly : List Point)
    (st : EngineState) (pos : Point) :
    stepFrame d [poly] [] st pos
      = zoneStep d pos {st with traj := st.traj ++ [pos]} (0, poly) := by
  have henum : ([poly] : List (List Point)).enum = [(0, poly)] := rfl
  have hlenum : (([] : List (Point × Point))).enum = [] := rfl
  simp only [stepFrame, henum, hlenum, zoneLoop, lineLoop, List.append_nil]
  split_ifs <;> rfl

theorem zoneStep_out_notmem (d : Bool) (pos : Point) (st : EngineState)
    (poly : List Point) (hout : punto_en_poligono pos poly = false)
    (h1 : zoneIdAt 0 ∉ st.engZones) :
    zoneStep d pos st (0, poly) = (st, []) := by
  simp [zoneStep, hout, h1]

theorem zoneStep_in_notmem (d : Bool) (pos : Point) (st : EngineState)
    (poly : List Point) (hin : punto_en_poligono pos poly = true)
    (h1 : zoneIdAt 0 ∉ st.engZones) (h2 : zoneIdAt 0 ∉ st.csvZones) :
    zoneStep d pos st (0, poly)
      = ({ st with
           engZones := zoneIdAt 0 :: st.engZones
           csvZones := zoneIdAt 0 :: st.csvZones },
         Ev.zone Chan.csv (zoneIdAt 0) EvKind.enter ::
           (if d then [Ev.zone Chan.db (zoneIdAt 0) EvKind.enter] else [])) := by
  simp [zoneStep, hin, insertZone, h1, check_zone_event, h2]

theorem zoneStep_in_mem (d : Bool) (pos : Point) (st : EngineState)
    (poly : List Point) (hin : punto_en_poligono pos poly = true)
    (h1 : zoneIdAt 0 ∈ st.engZones) (h2 : zoneIdAt 0 ∈ st.csvZones) :
    zoneStep d pos st (0, poly)
      = (st, if d then [Ev.zone Chan.db (zoneIdAt 0) EvKind.enter] else []) := by
  simp [zoneStep, hin, insertZone, h1, check_zone_event, h2]

theorem zoneStep_out_mem (d : Bool) (pos : Point) (st : EngineState)
    (poly : List Point) (hout : punto_en_poligono pos poly = false)
    (h1 : zoneIdAt 0 ∈ st.engZones) (h2 : zoneIdAt 0 ∈ st.csvZones) :
    zoneStep d pos st (0, poly)
      = ({ st with
           engZones := st.engZones.erase (zoneIdAt 0)
           csvZones := st.csvZones.erase (zoneIdAt 0) },
         Ev.zone Chan.csv (zoneIdAt 0) EvKind.exit ::
           (if d then [Ev.zone Chan.db (zoneIdAt 0) EvKind.exit] else [])) := by
  simp [zoneStep, hout, h1, check_zone_event, h2]

theorem filter_csv_of_db_ite (d : Bool) (zid : String) (k : EvKind) :
    (if d then [Ev.zone Chan.db zid k] else []).filter isCsvZoneEv = [] := by
  split_ifs <;> simp [isCsvZoneEv]

theorem run_out_phase (d : Bool) (poly : List Point) (ps : List Point) :
    ∀ st : EngineState, (∀ p ∈ ps, punto_en_poligono p poly = false) →
      zoneIdAt 0 ∉ st.engZones →
      (runEngine d [poly] [] st ps).2 = [] ∧
        (runEngine d [poly] [] st ps).1.engZones = st.engZones ∧
        (runEngine d [poly] [] st ps).1.csvZones = st.csvZones := by
  induction ps with
  | nil => intro st _ _; exact ⟨rfl, rfl, rfl⟩
  | cons p rest ih =>
    intro st hall hmem
    have hstep := zoneStep_out_notmem d p {st with traj := st.traj ++ [p]} poly
      (hall p (List.mem_cons_self _ _)) hmem
    have ihr := ih {st with traj := st.traj ++ [p]}
      (fun q hq => hall q (List.mem_cons_of_mem _ hq)) hmem
    simp only [runEngine, stepFrame_single_poly, hstep]
    simpa using ihr

theorem run_in_phase (d : Bool) (poly : List Point) (ps : List Point) :
    ∀ st : EngineState, (∀ p ∈ ps, punto_en_poligono p poly = true) →
      zoneIdAt 0 ∈ st.engZones → zoneIdAt 0 ∈ st.csvZones →
      (runEngine d [poly] [] st ps).2.filter isCsvZoneEv = [] ∧
        (runEngine d [poly] [] st ps).1.engZones = st.engZones ∧
        (runEngine d [poly] [] st ps).1.csvZones = st.csvZones := by
  induction ps with
  | nil => intro st _ _ _; exact ⟨rfl, rfl, rfl⟩
  | cons p rest ih =>
    intro st hall hmem1 hmem2
    have hstep := zoneStep_in_mem d p {st with traj := st.traj ++ [p]} poly
      (hall p (List.mem_cons_self _ _)) hmem1 hmem2
    have ihr := ih {st with traj := st.traj ++ [p]}
      (fun q hq => hall q (List.mem_cons_of_mem _ hq)) hmem1 hmem2
    simp only [runEngine, stepFrame_single_poly, hstep, List.filter_append,
      filter_csv_of_db_ite, List.nil_append]
    simpa using ihr

theorem run_enter_phase (d : Bool) (poly : List Point) (i : Point)
    (ins' : List Point) (st : EngineState)
    (hin : ∀ p ∈ i :: ins', punto_en_poligono p poly = true)
    (h1 : zoneIdAt 0 ∉ st.engZones) (h2 : zoneIdAt 0 ∉ st.csvZones) :
    (runEngine d [poly] [] st (i :: ins')).2.filter isCsvZoneEv
        = [Ev.zone Chan.csv (zoneIdAt 0) EvKind.enter] ∧
      (runEngine d [poly] [] st (i :: ins')).1.engZones
        = zoneIdAt 0 :: st.engZones ∧
      (runEngine d [poly] [] st (i :: ins')).1.csvZones
        = zoneIdAt 0 :: st.csvZones := by
  have hstep := zoneStep_in_notmem d i {st with traj := st.traj ++ [i]} poly
    (hin i (List.mem_cons_self _ _)) h1 h2
  obtain ⟨e3, g3, g4⟩ := run_in_phase d poly ins'
    ({ st with
       traj := st.traj ++ [i]
       engZones := zoneIdAt 0 :: st.engZones
       csvZones := zoneIdAt 0 :: st.csvZones })
    (fun q hq => hin q (List.mem_cons_of_mem _ hq))
    (List.mem_cons_self _ _) (List.mem_cons_self _ _)
  refine ⟨?_, ?_, ?_⟩
  · rw [runEngine_cons_snd, stepFrame_single_poly, hstep]
    simp only [List.filter_append, List.filter_cons]
    rw [show (runEngine d [poly] []
        ((({ st with
             traj := st.traj ++ [i]
             engZones := zoneIdAt 0 :: st.engZones
             csvZones := zoneIdAt 0 :: st.csvZones } : EngineState),
           Ev.zone Chan.csv (zoneIdAt 0) EvKind.enter ::
             (if d then [Ev.zone Chan.db (zoneIdAt 0) EvKind.enter] else [])).1)
        ins').2.filter isCsvZoneEv = [] from e3]
    simp [isCsvZoneEv, filter_csv_of_db_ite]
  · rw [runEngine_cons_fst, stepFrame_single_poly, hstep]
    exact g3
  · rw [runEngine_cons_fst, stepFrame_single_poly, hstep]
    exact g4

theorem run_exit_phase (d : Bool) (poly : List Point) (o : Point)
    (outs2' : List Point) (st : EngineState)
    (hout : ∀ p ∈ o :: outs2', punto_en_poligono p poly = false)
    (h1 : zoneIdAt 0 ∈ st.engZones) (h2 : zoneIdAt 0 ∈ st.csvZones)
    (h3 : zoneIdAt 0 ∉ st.engZones.erase (zoneIdAt 0)) :
    (runEngine d [poly] [] st (o :: outs2')).2.filter isCsvZoneEv
      = [Ev.zone Chan.csv (zoneIdAt 0) EvKind.exit] := by
  have hstep := zoneStep_out_mem d o {st with traj := st.traj ++ [o]} poly
    (hout o (List.mem_cons_self _ _)) h1 h2
  obtain ⟨e5, -, -⟩ := run_out_phase d poly outs2'
    ({ st with
       traj := st.traj ++ [o]
       engZones := st.engZones.erase (zoneIdAt 0)
       csvZones := st.csvZones.erase (zoneIdAt 0) })
    (fun q hq => hout q (List.mem_cons_of_mem _ hq)) h3
  rw [runEngine_cons_snd, stepFrame_single_poly, hstep]
  simp only [List.filter_append, List.filter_cons]
  rw [show (runEngine d [poly] []
      ((({ st with
           traj := st.traj ++ [o]
           engZones := st.engZones.erase (zoneIdAt 0)
           csvZones := st.csvZones.erase (zoneIdAt 0) } : EngineState),
         Ev.zone Chan.csv (zoneIdAt 0) EvKind.exit ::
           (if d then [Ev.zone Chan.db (zoneIdAt 0) EvKind.exit] else [])).1)
      outs2').2 = [] from e5]
  simp [isCsvZoneEv, filter_csv_of_db_ite]

/-- C1 (corrected): for an entity whose positions go outside → inside →
back outside a polygon, the CSV persistence channel (the claim's
`check_zone_event` state machine) emits exactly one `Enter` and one
`Exit`, in that order, regardless of how many intermediate frames are
inside and regardless of whether the database sink is enabled.  (The
database channel itself does *not* satisfy the claim — see the
counterexample.) -/
theorem c1_csv_enter_exit_exactly_once (dbOn : Bool) (poly : List Point)
    (outs1 ins outs2 : List Point)
    (hout1 : ∀ p ∈ outs1, punto_en_poligono p poly = false)
    (hin : ∀ p ∈ ins, punto_en_poligono p poly = true)
    (hne1 : ins ≠ [])
    (hout2 : ∀ p ∈ outs2, punto_en_poligono p poly = false)
    (hne2 : outs2 ≠ []) :
    ((runEngine dbOn [poly] [] initState (outs1 ++ ins ++ outs2)).2.filter
        isCsvZoneEv)
      = [Ev.zone Chan.csv "polygon_1" EvKind.enter,
         Ev.zone Chan.csv "polygon_1" EvKind.exit] := by
  obtain ⟨i, ins', rfl⟩ := List.exists_cons_of_ne_nil hne1
  obtain ⟨o, outs2', rfl⟩ := List.exists_cons_of_ne_nil hne2
  have hzid : zoneIdAt 0 = "polygon_1" := rfl
  obtain ⟨e1, g1, g2⟩ := run_out_phase dbOn poly outs1 initState hout1 (by
    intro hmem
    simp [initState] at hmem)
  obtain ⟨e2, g5, g6⟩ := run_enter_phase dbOn poly i ins'
    (runEngine dbOn [poly] [] initState outs1).1 hin
    (by rw [g1]; intro hmem; simp [initState] at hmem)
    (by rw [g2]; intro hmem; simp [initState] at hmem)
  have e4 := run_exit_phase dbOn poly o outs2'
    (runEngine dbOn [poly] []
      (runEngine dbOn [poly] [] initState outs1).1 (i :: ins')).1 hout2
    (by rw [g5]; exact List.mem_cons_self _ _)
    (by rw [g6]; exact List.mem_cons_self _ _)
    (by
      rw [g5, List.erase_cons_head, g1]
      intro hmem
      simp [initState] at hmem)
  rw [runEngine_append_snd, runEngine_append_snd, runEngine_append_fst,
    List.filter_append, List.filter_append, e1, e2, e4]
  simp [hzid]

/-- C1 witness: the square `[(100,100),(300,100),(300,300),(100,300)]`,
an entity outside at `(50,50)`, inside for two frames, then outside for two
frames, with the database sink enabled. -/
theorem c1_csv_enter_exit_exactly_once_witness :
    ((runEngine true [[(100, 100), (300, 100), (300, 300), (100, 300)]] []
        initState
        ([(50, 50)] ++ [(200, 200), (200, 210)] ++ [(50, 50), (40, 40)])).2.filter
      isCsvZoneEv)
      = [Ev.zone Chan.csv "polygon_1" EvKind.enter,
         Ev.zone Chan.csv "polygon_1" EvKind.exit] :=
  c1_csv_enter_exit_exactly_once true
    [(100, 100), (300, 100), (300, 300), (100, 300)]
    [(50, 50)] [(200, 200), (200, 210)] [(50, 50), (40, 40)]
    (by decide) (by decide) (by decide) (by decide) (by decide)

/-- C1 counterexample: with the database sink enabled (`enable_database`),
the same outside → inside → inside → outside trace produces three `enter`
events in total (one CSV, two database — the database path saves an enter
on every frame the entity is inside), so the engine does not emit exactly
one `Enter`, and events are emitted on frames where membership does not
change. -/
theorem c1_db_enter_every_inside_frame :
    (((runEngine true [[(100, 100), (300, 100), (300, 300), (100, 300)]] []
        initState [(50, 50), (200, 200), (200, 210), (50, 50)]).2).filter
      isEnterEv).length = 3 := by
  decide

/-! ## Claim C2 -/

/-- C2 (corrected): whenever the unified engine reports a crossing, the
direction it emits is computed by comparing raw x-coordinates
(`"left_to_right" if cx > prev_x else "right_to_left"`), not from the
cross product: for any motion `prev → cur` that crosses the configured
line, the single emitted event carries exactly that x-comparison
direction. -/
theorem c2_engine_direction_is_x_comparison (prev cur : Point)
    (l : Point × Point) (h : cruza_linea prev cur l = true) :
    (runEngine false [] [l] initState [prev, cur]).2
      = [Ev.line Chan.csv "line_1"
          (if cur.1 > prev.1 then Direction.left_to_right
           else Direction.right_to_left)] := by
  have hid : lineIdAt 0 = "line_1" := rfl
  have hstep : lineStep false prev cur ⟨[prev, cur], [], false, [], []⟩ (0, l)
      = (⟨[prev, cur], [], true, [], ["line_1"]⟩,
         [Ev.line Chan.csv "line_1"
           (if cur.1 > prev.1 then Direction.left_to_right
            else Direction.right_to_left)]) := by
    simp [lineStep, h, csvLineEmit, hid]
  have hrun : runEngine false [] [l] initState [prev, cur]
      = ((lineStep false prev cur ⟨[prev, cur], [], false, [], []⟩ (0, l)).1,
         ((lineStep false prev cur ⟨[prev, cur], [], false, [], []⟩ (0, l)).2
            ++ []) ++ []) := rfl
  rw [hrun, hstep]
  simp

/-- C2 witness: the crossing `(6,5) → (4,5)` over the vertical line
`(5,0)–(5,10)` emits the x-comparison direction. -/
theorem c2_engine_direction_is_x_comparison_witness :
    (runEngine false [] [((5, 0), (5, 10))] initState [(6, 5), (4, 5)]).2
      = [Ev.line Chan.csv "line_1" Direction.right_to_left] :=
  c2_engine_direction_is_x_comparison (6, 5) (4, 5) ((5, 0), (5, 10)) (by decide)

/-- C2 counterexample: for the motion `(6,5) → (4,5)` over the line
`(5,0)–(5,10)` a crossing is reported and the engine emits
`right_to_left`, while the cross-product rule
(`determinar_direccion_cruce`, which the unified engine never calls)
classifies this crossing `left_to_right` — the emitted direction is the
raw x-coordinate comparison, not the cross product. -/
theorem c2_emitted_direction_contradicts_cross_product :
    (runEngine false [] [((5, 0), (5, 10))] initState [(6, 5), (4, 5)]).2
        = [Ev.line Chan.csv "line_1" Direction.right_to_left] ∧
      determinar_direccion_cruce (6, 5) (4, 5) ((5, 0), (5, 10))
        = Direction.left_to_right := by
  refine ⟨by decide, by decide⟩

/-! ## Claim C7 -/

/-- C7 (corrected): whenever the motion segment actually crosses the line
(`cruza_linea` reports a crossing), swapping the previous and current
positions flips the direction reported by `determinar_direccion_cruce`.
(Without the crossing hypothesis the flip can fail: when the cross product
is zero both orientations are classified `right_to_left` — see the
counterexample.) -/
theorem c7_reversal_flips_direction (p1 p2 : Point) (l : Point × Point)
    (h : cruza_linea p1 p2 l = true) :
    (determinar_direccion_cruce p1 p2 l = .left_to_right →
      determinar_direccion_cruce p2 p1 l = .right_to_left) ∧
    (determinar_direccion_cruce p1 p2 l = .right_to_left →
      determinar_direccion_cruce p2 p1 l = .left_to_right) := by
  obtain ⟨x1, y1⟩ := p1
  obtain ⟨x2, y2⟩ := p2
  obtain ⟨⟨ax, ay⟩, bx, qy⟩ := l
  simp only [cruza_linea, Bool.and_eq_true, bne_iff_ne, ne_eq] at h
  obtain ⟨-, h2⟩ := h
  simp only [ccw, decide_eq_decide] at h2
  have hkey : (y2 - ay) * (bx - ax) - (qy - ay) * (x2 - ax)
      = (y1 - ay) * (bx - ax) - (qy - ay) * (x1 - ax)
        + ((bx - ax) * (y2 - y1) - (qy - ay) * (x2 - x1)) := by ring
  have hC : (bx - ax) * (y2 - y1) - (qy - ay) * (x2 - x1) ≠ 0 := by
    intro h0
    apply h2
    constructor <;> intro hh <;> linarith
  have hC2 : (bx - ax) * (y1 - y2) - (qy - ay) * (x1 - x2)
      = -((bx - ax) * (y2 - y1) - (qy - ay) * (x2 - x1)) := by ring
  simp only [determinar_direccion_cruce]
  rcases lt_or_gt_of_ne hC with hneg | hpos
  · constructor
    · intro hd
      rw [if_neg (by linarith)] at hd
      exact absurd hd (by simp)
    · intro _
      rw [if_pos (by linarith)]
  · constructor
    · intro _
      rw [if_neg (by linarith)]
    · intro hd
      rw [if_pos (by linarith)] at hd
      exact absurd hd (by simp)

/-- C7 witness: the crossing `(6,5) → (4,5)` over the vertical line
`(5,0)–(5,10)`, in both orders. -/
theorem c7_reversal_flips_direction_witness :
    determinar_direccion_cruce (4, 5) (6, 5) ((5, 0), (5, 10)) = .right_to_left ∧
      determinar_direccion_cruce (6, 5) (4, 5) ((5, 0), (5, 10)) = .left_to_right :=
  ⟨(c7_reversal_flips_direction (6, 5) (4, 5) ((5, 0), (5, 10)) (by decide)).1
      (by decide),
    (c7_reversal_flips_direction (4, 5) (6, 5) ((5, 0), (5, 10)) (by decide)).2
      (by decide)⟩

/-- C7 counterexample: for a motion parallel to the line (cross product
zero, no crossing), both orders are classified `right_to_left`, so the
unconditional "for every previous/current position pair" version of the
claim is false. -/
theorem c7_parallel_motion_no_flip :
    determinar_direccion_cruce (0, 0) (2, 0) ((0, 0), (1, 0)) = .right_to_left ∧
      determinar_direccion_cruce (2, 0) (0, 0) ((0, 0), (1, 0)) = .right_to_left := by
  refine ⟨by decide, by decide⟩

end Flowsense
